import Mathlib

/-
  Verification development for the pistache HTTP/1.x server core
  (src/src/http.cc and src/src/os.cc).

  The embedding translates the incremental request parser (request-line,
  headers and body steps, driver, feed/reset), the response serializer,
  the query map, the peer association and the epoll facade into
  executable Lean definitions, and settles the frozen claims about them.

  Bytes are modelled as Lean `Char` lists; the C++ `StreamCursor` over the
  byte buffer is modelled as a position into the list.  Stream-cursor
  primitives (`current`, `advance`, `eol`, `match_raw`, `match_until`,
  token capture) live in stream.h/stream.cc which is not part of the
  two given source files; they are modelled from the spec, section 4.1.
-/

namespace Pistache

/-- The CRLF byte pair used throughout the HTTP wire format. -/
def crlfL : List Char := ['\r', '\n']

/-- The NUL byte, the terminator `strncmp` stops at. -/
def nulChar : Char := Char.ofNat 0

/-- Modelled from the spec: the cursor scan loop
`while current() is not a stop byte: if !advance(1) return Again`.
Returns the offset of the first byte satisfying `stop`, or `none` when the
scan falls off the end of the available input (the C++ `current()` returns
an EOF sentinel there, and the subsequent `advance(1)` fails). -/
def scanUntil (stop : Char → Bool) : List Char → Option Nat
  | [] => none
  | c :: cs => if stop c then some 0 else (scanUntil stop cs).map (· + 1)

/-- Modelled from the spec: the loop `while !eol(): if !advance(1) return Again`.
`eol()` is true iff the current two bytes are CR, LF (spec section 4.1).
Returns the offset of the first CRLF pair, or `none` when input runs out. -/
def scanCrlf : List Char → Option Nat
  | [] => none
  | c :: cs => if c = '\r' ∧ cs.head? = some '\n' then some 0
               else (scanCrlf cs).map (· + 1)

/-- Modelled from the spec: `while current() == SP advance(1)`, which exits
at the first non-space byte or at end of input (where `current()` is the
EOF sentinel, which is not SP). Returns the number of spaces skipped. -/
def skipSpaces : List Char → Nat
  | ' ' :: cs => skipSpaces cs + 1
  | _ => 0

/-- Modelled from the spec: `match_raw(literal, len, cursor)` advances the
cursor past the literal iff the literal's bytes all occur at the current
position (a strict byte prefix of the remaining input is not a match). -/
def matchLit : List Char → List Char → Bool
  | [], _ => true
  | _, [] => false
  | l :: ls, c :: cs => l = c && matchLit ls cs

/-- First-match association-list lookup, the shape shared by the query map
and the header collection. -/
def qfind : List (List Char × List Char) → List Char → Option (List Char)
  | [], _ => none
  | (k, v) :: rest, key => if k = key then some v else qfind rest key

/-- C `strncmp(s, lit, n) == 0`: compare at most `n` bytes, stopping early
at a NUL in either operand.  `s` is the version token sliced out of the
buffer, `lit` the NUL-terminated literal; a missing byte reads as NUL. -/
def strncmpIsEq : List Char → List Char → Nat → Bool
  | _, _, 0 => true
  | s, t, n + 1 =>
    let c1 := s.headD nulChar
    let c2 := t.headD nulChar
    if c1 = c2 then (if c1 = nulChar then true else strncmpIsEq s.tail t.tail n)
    else false

/-- Modelled from the spec: the typed `ContentLength` header (external
registry, spec section 6) parses its raw value as a decimal number.
Reads the maximal leading digit run, accumulating left to right. -/
def parseNatD : List Char → Nat → Nat
  | c :: cs, acc => if c.isDigit then parseNatD cs (acc * 10 + (c.toNat - 48)) else acc
  | [], acc => acc

/-- `enum class Method` (http.h): the closed set of recognized methods. -/
inductive Method
  | Options | Get | Post | Head | Put | Delete | Trace | Connect | Patch
deriving DecidableEq, Repr

/-- `enum class Version` (http.h): the two accepted HTTP versions. -/
inductive Version
  | Http10 | Http11
deriving DecidableEq, Repr

/-- Modelled from the spec: the `HTTP_METHODS` literal table (common.h),
in the order the spec's data model lists the methods. -/
def methodTable : List (List Char × Method) :=
  [ ("OPTIONS".data, Method.Options), ("GET".data, Method.Get),
    ("POST".data, Method.Post), ("HEAD".data, Method.Head),
    ("PUT".data, Method.Put), ("DELETE".data, Method.Delete),
    ("TRACE".data, Method.Trace), ("CONNECT".data, Method.Connect),
    ("PATCH".data, Method.Patch) ]

/-- The method-matching loop of `RequestLineStep::apply` (http.cc:70-77):
first table entry whose literal matches at the cursor, together with the
number of bytes `match_raw` advanced. -/
def findMethod (s : List Char) : List (List Char × Method) → Option (Method × Nat)
  | [] => none
  | (lit, m) :: rest => if matchLit lit s then some (m, lit.length) else findMethod s rest

/-- `Uri::Query` (http.h/http.cc): a map from parameter name to value,
backed by `std::unordered_map` whose `insert` keeps an existing entry. -/
structure Query where
  params : List (List Char × List Char)
deriving DecidableEq, Repr

/-- `Uri::Query::add` (http.cc:301-304): `params.insert(make_pair(name, value))`.
`std::unordered_map::insert` is a no-op when the key is already present,
so the first-inserted value is retained. -/
def Query.add (q : Query) (name value : List Char) : Query :=
  match qfind q.params name with
  | some _ => q
  | none => ⟨q.params ++ [(name, value)]⟩

/-- `Uri::Query::get` (http.cc:306-313): `find` in the map, `None()` when absent. -/
def Query.get (q : Query) (name : List Char) : Option (List Char) :=
  qfind q.params name

/-- Modelled from the spec: `Header::Collection` add (header collection is
declared outside the two given sources).  Spec section 3: duplicates by
canonical name are replaced on add; headers keep insertion order.  Typed
and raw headers are both modelled as (name, raw value) pairs. -/
def headersAdd (hs : List (List Char × List Char)) (name value : List Char) :
    List (List Char × List Char) :=
  match qfind hs name with
  | some _ => hs.map (fun p => if p.1 = name then (name, value) else p)
  | none => hs ++ [(name, value)]

/-- `Http::Request` (plus the `Message` base): method, version, resource,
query, header collection and body.  `Message()` initializes the version to
Http11; `method_` is an uninitialized enum in C++ and is always assigned
by the request-line step before any parse reaches Done — the model picks
`Get` as its arbitrary initial value. -/
structure Request where
  method : Method := Method.Get
  version : Version := Version.Http11
  resource : List Char := []
  query : Query := ⟨[]⟩
  headers : List (List Char × List Char) := []
  body : List Char := []
deriving DecidableEq, Repr

/-- `HttpError(code, reason)` thrown by `Step::raise` (http.cc:45-48);
the default code is 400 Bad Request. -/
structure HttpError where
  code : Nat
  reason : List Char
deriving DecidableEq, Repr

/-- Result of one request-line/headers step invocation.  `again` reverts
the cursor to the section start (the `StreamCursor::Revert` guard runs on
every exit path that is not `ignore()`d, including exception unwinding)
but keeps the mutations already made to the request.  `next` carries the
new cursor position past the consumed section. -/
inductive SectionOut
  | again (req : Request)
  | next (req : Request) (newPos : Nat)
  | fail (e : HttpError) (req : Request)
deriving Repr

/-- `Header::ContentLength` lookup used by `BodyStep::apply` (http.cc:202):
`tryGet<ContentLength>` finds the typed Content-Length header.  Modelled
from the spec: name lookup in the collection plus decimal value parse. -/
def contentLengthOf (req : Request) : Option Nat :=
  match qfind req.headers "Content-Length".data with
  | none => none
  | some v => some (parseNatD v 0)

/-- The `strncmp` cascade of `RequestLineStep::apply` (http.cc:133-143):
compare the version token against "HTTP/1.0" then "HTTP/1.1" with
`strncmp(ver, literal, token_size)`, else raise
"Encountered invalid HTTP version" (400). -/
def decideVersion (tok : List Char) : Except HttpError Version :=
  if strncmpIsEq tok "HTTP/1.0".data tok.length then Except.ok Version.Http10
  else if strncmpIsEq tok "HTTP/1.1".data tok.length then Except.ok Version.Http11
  else Except.error { code := 400, reason := "Encountered invalid HTTP version".data }

/-- Outcome of the query-pair loop of `RequestLineStep::apply`
(http.cc:101-119).  `stop` exits at the terminating SP (offset relative
to the loop's start suffix); `again` propagates insufficient input.
Query entries added before the suspension are kept, as in the source
(the revert guard restores only the cursor). -/
inductive QueryOut
  | again (q : Query)
  | stop (q : Query) (off : Nat)
deriving Repr

/-- The `while ((n = cursor.current()) != ' ')` query loop
(http.cc:101-119).  Each iteration reads `key` up to '=', skips the '=',
reads `value` up to SP or '&', adds the pair, and advances past a '&'.
The fuel argument only bounds the recursion; callers pass one more than
the suffix length, and each iteration consumes at least two bytes, so the
fuel never runs out on the paths the source can take. -/
def queryLoop : Nat → Query → List Char → QueryOut
  | 0, q, _ => QueryOut.again q
  | fuel + 1, q, s =>
    if s.head? = some ' ' then QueryOut.stop q 0
    else
      match scanUntil (fun ch => ch = '=') s with
      | none => QueryOut.again q
      | some e =>
        let key := s.take e
        let s1 := s.drop (e + 1)
        match scanUntil (fun ch => ch = ' ' ∨ ch = '&') s1 with
        | none => QueryOut.again q
        | some v =>
          let q1 := q.add key (s1.take v)
          if s1.get? v = some '&' then
            match queryLoop fuel q1 (s1.drop (v + 1)) with
            | QueryOut.again q2 => QueryOut.again q2
            | QueryOut.stop q2 off => QueryOut.stop q2 (e + 1 + v + 1 + off)
          else QueryOut.stop q1 (e + 1 + v)

/-- The version part of `RequestLineStep::apply` (http.cc:127-148): capture
the version token up to CRLF, decide the version via the `strncmp`
cascade, consume the terminating CRLF (`advance(2)` cannot fail there
because the CRLF bytes were just seen) and release the revert guard.
`sv` is the buffer suffix at the token start; the returned position is
absolute. -/
def versionPart (req : Request) (buf : List Char) (sv : List Char) : SectionOut :=
  match scanCrlf sv with
  | none => SectionOut.again req
  | some w =>
    match decideVersion (sv.take w) with
    | Except.error e => SectionOut.fail e req
    | Except.ok ver =>
      SectionOut.next { req with version := ver } (buf.length - (sv.length - (w + 2)))

/-- `RequestLineStep::apply` (http.cc:50-150).  Operates on the suffix of
the buffer at the cursor; `again` leaves the cursor at the section start
(revert guard).  Method match, single SP, resource up to SP or '?',
optional query pairs, SP, version token up to CRLF, CRLF. -/
def RequestLineStep.apply (req0 : Request) (buf : List Char) (pos : Nat) : SectionOut :=
  let s := buf.drop pos
  match findMethod s methodTable with
  | none => SectionOut.fail { code := 400, reason := "Unknown HTTP request method".data } req0
  | some (m, mlen) =>
    let req1 := { req0 with method := m }
    let s1 := s.drop mlen
    match s1.head? with
    | none => SectionOut.again req1
    | some c =>
      if c ≠ ' ' then
        SectionOut.fail
          { code := 400, reason := "Malformed HTTP request after Method, expected SP".data } req1
      else
        let s2 := s1.drop 1
        match scanUntil (fun ch => ch = '?' ∨ ch = ' ') s2 with
        | none => SectionOut.again req1
        | some r =>
          let req2 := { req1 with resource := s2.take r }
          if s2.get? r = some '?' then
            match queryLoop ((s2.drop (r + 1)).length + 1) req2.query (s2.drop (r + 1)) with
            | QueryOut.again q => SectionOut.again { req2 with query := q }
            | QueryOut.stop q off =>
              versionPart { req2 with query := q } buf (s2.drop (r + 1 + off + 1))
          else
            versionPart req2 buf (s2.drop (r + 1))

/-- Outcome of the header-field loop of `HeadersStep::apply`
(http.cc:156-194).  `stop` exits at the end-of-headers CRLF, which is not
consumed; headers added before a suspension are kept (the revert guards
restore only the cursor). -/
inductive HeadersOut
  | again (hs : List (List Char × List Char))
  | stop (hs : List (List Char × List Char)) (off : Nat)
deriving Repr

/-- The `while (!cursor.eol())` header loop (http.cc:156-194): name up to
':', skip the ':' and a run of SP, value up to CRLF, add the header
(typed or raw — both modelled as name/value), consume the CRLF.  Fuel as
in `queryLoop`: callers pass one more than the suffix length, ample
because each iteration consumes at least one byte. -/
def headersLoop : Nat → List (List Char × List Char) → List Char → HeadersOut
  | 0, hs, _ => HeadersOut.again hs
  | fuel + 1, hs, s =>
    match s with
    | '\r' :: '\n' :: _ => HeadersOut.stop hs 0
    | _ =>
      match scanUntil (fun ch => ch = ':') s with
      | none => HeadersOut.again hs
      | some c =>
        let name := s.take c
        let s1 := s.drop (c + 1)
        let sp := skipSpaces s1
        let s2 := s1.drop sp
        match scanCrlf s2 with
        | none => HeadersOut.again hs
        | some v =>
          let hs1 := headersAdd hs name (s2.take v)
          match headersLoop fuel hs1 (s2.drop (v + 2)) with
          | HeadersOut.again hs2 => HeadersOut.again hs2
          | HeadersOut.stop hs2 off => HeadersOut.stop hs2 (c + 1 + sp + v + 2 + off)

/-- `HeadersStep::apply` (http.cc:152-198).  Returns `next` with the cursor
at the end-of-headers CRLF (the blank line is left for the body step). -/
def HeadersStep.apply (req0 : Request) (buf : List Char) (pos : Nat) : SectionOut :=
  let s := buf.drop pos
  match headersLoop (s.length + 1) req0.headers s with
  | HeadersOut.again hs => SectionOut.again { req0 with headers := hs }
  | HeadersOut.stop hs off => SectionOut.next { req0 with headers := hs } (pos + off)

/-- Result of `BodyStep::apply`: the body step never raises and never
returns Next; it moves the cursor even on `again` (it has no revert
guard) and tracks `bytesRead` across calls. -/
inductive BodyOut
  | again (req : Request) (newPos : Nat) (bytesRead : Nat)
  | done (req : Request) (newPos : Nat) (bytesRead : Nat)
deriving Repr

/-- `BodyStep::apply` (http.cc:200-252).  Without a Content-Length header
the step is Done at once.  On first entry it consumes the blank-line CRLF
and appends up to `contentLength` bytes; on re-entry with `bytesRead > 0`
it appends the rest.  Fidelity note on the completed re-entry path
(http.cc:224): the source appends `remaining` bytes from `cursor.offset()`
taken AFTER `cursor.advance(remaining)` succeeded — i.e. the bytes past
the body's end — not from the saved start.  The model reads those
out-of-place bytes from the fed data (the C++ reads whatever sits in the
allocated buffer there); bytes beyond the fed data yield nothing. -/
def BodyStep.apply (req0 : Request) (buf : List Char) (pos : Nat) (bytesRead : Nat) : BodyOut :=
  match contentLengthOf req0 with
  | none => BodyOut.done req0 pos bytesRead
  | some cl =>
    let s := buf.drop pos
    if 0 < bytesRead then
      let rem := cl - bytesRead
      if s.length < rem then
        BodyOut.again { req0 with body := req0.body ++ s } (pos + s.length) (bytesRead + s.length)
      else
        BodyOut.done { req0 with body := req0.body ++ ((s.drop rem).take rem) } (pos + rem) 0
    else
      if s.length < 2 then BodyOut.again req0 pos bytesRead
      else
        let s2 := s.drop 2
        if s2.length < cl then
          BodyOut.again { req0 with body := req0.body ++ s2 }
            (pos + 2 + s2.length) (bytesRead + s2.length)
        else
          BodyOut.done { req0 with body := req0.body ++ s2.take cl } (pos + 2 + cl) 0

/-- The state `Private::Parser::parse` returns to its caller: Again
(suspended awaiting bytes) or Done (request complete). -/
inductive HState
  | Again | Done
deriving DecidableEq, Repr

/-- `Private::Parser` (the parser driver): byte buffer, cursor position,
current step index, in-progress request, and the body step's
`bytesRead` scratch field. -/
structure Parser where
  buffer : List Char
  pos : Nat
  step : Nat
  req : Request
  bytesRead : Nat
deriving DecidableEq, Repr

/-- A freshly constructed parser driver. -/
def freshParser : Parser :=
  { buffer := [], pos := 0, step := 0, req := {}, bytesRead := 0 }

/-- Result of `Parser::parse`: the returned state and driver, or a thrown
`HttpError` together with the driver as the exception leaves it (the
revert guards restore the cursor during unwinding; request mutations made
before the throw are kept). -/
inductive ParseRes
  | ok (s : HState) (d : Parser)
  | err (e : HttpError) (d : Parser)
deriving DecidableEq, Repr

/-- The body-step leg of the driver loop. -/
def Parser.runBody (d : Parser) : ParseRes :=
  match BodyStep.apply d.req d.buffer d.pos d.bytesRead with
  | BodyOut.again req p br => ParseRes.ok HState.Again { d with req := req, pos := p, bytesRead := br }
  | BodyOut.done req p br => ParseRes.ok HState.Done { d with req := req, pos := p, bytesRead := br }

/-- The headers-step leg of the driver loop: on Next advance to the body
step within the same `parse()` call. -/
def Parser.runHeaders (d : Parser) : ParseRes :=
  match HeadersStep.apply d.req d.buffer d.pos with
  | SectionOut.again req => ParseRes.ok HState.Again { d with req := req }
  | SectionOut.fail e req => ParseRes.err e { d with req := req }
  | SectionOut.next req p => Parser.runBody { d with req := req, pos := p, step := 2 }

/-- `Parser::parse` (http.cc:254-267): run the current step; on Next
advance the step index and re-enter the loop; return Again or Done. -/
def Parser.parse (d : Parser) : ParseRes :=
  match d.step with
  | 0 =>
    match RequestLineStep.apply d.req d.buffer d.pos with
    | SectionOut.again req => ParseRes.ok HState.Again { d with req := req }
    | SectionOut.fail e req => ParseRes.err e { d with req := req }
    | SectionOut.next req p => Parser.runHeaders { d with req := req, pos := p, step := 1 }
  | 1 => Parser.runHeaders d
  | _ => Parser.runBody d

/-- `Parser::feed` (http.cc:269-272) delegating to `RawBuffer::feed`.
Modelled from the spec (the raw buffer lives outside the given
sources): append the bytes and return false if the capacity would be
exceeded, in which case nothing is appended. -/
def Parser.feed (cap : Nat) (d : Parser) (chunk : List Char) : Bool × Parser :=
  if d.buffer.length + chunk.length > cap then (false, d)
  else (true, { d with buffer := d.buffer ++ chunk })

/-- `Parser::reset` (http.cc:274-284): clear the buffer, the cursor and
the step index, and clear the request's headers, body and resource.
Fidelity note: the source does NOT clear `request.query_`, `method_` or
`version_`, nor the body step's `bytesRead` scratch. -/
def Parser.reset (d : Parser) : Parser :=
  { d with buffer := [], pos := 0, step := 0,
           req := { d.req with headers := [], body := [], resource := [] } }

/-- What `Handler::onInput` emits towards the peer for one input chunk:
the completed request handed to `onRequest`, an error response sent with
a status code and reason, or nothing (parser suspended). -/
inductive Action
  | requestDone (req : Request)
  | errorSent (code : Nat) (reason : List Char)
  | wait
deriving DecidableEq, Repr

/-- `Handler::onInput` (http.cc:447-475).  Feed the chunk; on overflow
reset the parser and (via the thrown-and-caught `HttpError` with
`Code::Request_Entity_Too_Large` = 413) send an error response.  On Done,
hand the request to the handler and reset; on a protocol error, send the
error's code and reason and reset.  The transport send is abstracted as
the returned `Action`. -/
def onInput (cap : Nat) (d : Parser) (chunk : List Char) : Parser × Action :=
  let fr := Parser.feed cap d chunk
  if fr.1 = false then
    (Parser.reset fr.2,
     Action.errorSent 413 "Request exceeded maximum buffer size".data)
  else
    match Parser.parse fr.2 with
    | ParseRes.ok HState.Done d2 => (Parser.reset d2, Action.requestDone d2.req)
    | ParseRes.ok HState.Again d2 => (d2, Action.wait)
    | ParseRes.err e d2 => (Parser.reset d2, Action.errorSent e.code e.reason)

/-- Feed one chunk and call `parse()` once, on a fresh parser whose buffer
capacity is exactly the input length (capacity only affects `feed`). -/
def runOnce (input : List Char) : ParseRes :=
  Parser.parse (Parser.feed input.length freshParser input).2

/-- Feed the chunks in order, calling `parse()` after each feed, and
collect the per-call results; stops after a failed feed or a thrown
error (the driver would be reset by the glue in those cases). -/
def runList (cap : Nat) (d : Parser) : List (List Char) → List ParseRes
  | [] => []
  | c :: cs =>
    let fr := Parser.feed cap d c
    if fr.1 = false then []
    else
      let r := Parser.parse fr.2
      match r with
      | ParseRes.ok _ d2 => r :: runList cap d2 cs
      | ParseRes.err _ _ => [r]

/-- The sequence of states a run produced (`none` for a thrown error). -/
def outcomes (rs : List ParseRes) : List (Option HState) :=
  rs.map (fun r => match r with
    | ParseRes.ok s _ => some s
    | ParseRes.err _ _ => none)

/-- The request of a run's final result when that result is Done. -/
def finalRequest (rs : List ParseRes) : Option Request :=
  match rs.getLast? with
  | some (ParseRes.ok HState.Done d) => some d.req
  | _ => none

/-- The request of a single parse result when it is Done. -/
def doneReq : ParseRes → Option Request
  | ParseRes.ok HState.Done d => some d.req
  | _ => none

/-- The thrown error of a single parse result, when one was thrown. -/
def errOf : ParseRes → Option HttpError
  | ParseRes.err e _ => some e
  | _ => none

/-
  Response serializer (http.cc:351-445).
-/

/-- Modelled from the spec: the reason phrase the `Code` stream insertion
operator (common.h, external) prints for a status code.  Only the codes
the specification names are given phrases. -/
def reasonPhrase : Nat → List Char
  | 200 => "OK".data
  | 400 => "Bad Request".data
  | 404 => "Not Found".data
  | 413 => "Request Entity Too Large".data
  | 500 => "Internal Server Error".data
  | _ => []

/-- Modelled from the spec: the bounded output stream over the response's
scratch buffer (`Io::OutArrayBuf`, array_buf.h, external).  A write that
would pass the buffer end puts the stream in a failed state; once failed
every later write is a no-op (sticky failbit).  Only the fully written
contents of a never-failed stream are ever observed (the source checks
the stream after every write and returns before the transport send on
failure), so a failed write is modelled as writing nothing. -/
structure OStream where
  out : List Char
  cap : Nat
  ok : Bool
deriving DecidableEq, Repr

/-- One bounds-checked write into the scratch buffer. -/
def OStream.write (st : OStream) (cs : List Char) : OStream :=
  if st.ok = false then st
  else if st.out.length + cs.length ≤ st.cap then { st with out := st.out ++ cs }
  else { st with ok := false }

/-- `Http::Response`: the header collection it owns.  The peer association
and the scratch buffer are handled in `sendBytes` and `associatePeer`. -/
structure Resp where
  headers : List (List Char × List Char)
deriving DecidableEq, Repr

/-- One `Name: value CRLF` header line as the header loop
(http.cc:402-406) writes it. -/
def headerLine (p : List Char × List Char) : List Char :=
  p.1 ++ ": ".data ++ p.2 ++ crlfL

/-- The Content-Type header line `writeHeader<Header::ContentType>` emits
(http.cc:30-39, 398); the typed header's `write` prints the MIME string. -/
def contentTypeLine (m : List Char) : List Char :=
  "Content-Type: ".data ++ m ++ crlfL

/-- The Content-Length header line `writeHeader<Header::ContentLength>`
emits (http.cc:409); the typed header's `write` prints the length in
decimal. -/
def contentLengthLine (n : Nat) : List Char :=
  "Content-Length: ".data ++ (toString n).data ++ crlfL

/-- The header collection as the emission loop sees it: when a MIME is
supplied and a Content-Type header is already present, `setMime`
overwrites that header's MIME in place (http.cc:393-396). -/
def emittedHeaders (r : Resp) (mime : Option (List Char)) :
    List (List Char × List Char) :=
  match mime with
  | none => r.headers
  | some m =>
    match qfind r.headers "Content-Type".data with
    | some _ => r.headers.map (fun p => if p.1 = "Content-Type".data then (p.1, m) else p)
    | none => r.headers

/-- The writes `Response::send` performs before the body handling
(http.cc:387-406): status line pieces, the auto-emitted Content-Type
(only when a MIME is supplied and none is present), and every collection
header in insertion order. -/
def respPrefixPieces (r : Resp) (code : Nat) (mime : Option (List Char)) :
    List (List Char) :=
  [ "HTTP/1.1 ".data, (toString code).data, [' '], reasonPhrase code, crlfL ]
  ++ (match mime with
      | none => []
      | some m =>
        match qfind r.headers "Content-Type".data with
        | some _ => []
        | none => [contentTypeLine m])
  ++ (emittedHeaders r mime).map headerLine

/-- The ordered sequence of writes `Response::send` performs
(http.cc:371-420), one list entry per `OUT(...)`-guarded write: the
prefix pieces, then either Content-Length + blank line + body (non-empty
body) or just the blank line. -/
def respPieces (r : Resp) (code : Nat) (body : List Char) (mime : Option (List Char)) :
    List (List Char) :=
  respPrefixPieces r code mime
  ++ (if body ≠ [] then [contentLengthLine body.length, crlfL, body] else [crlfL])

/-- The whole serialized response, as it appears when every write fits. -/
def renderedResp (r : Resp) (code : Nat) (body : List Char) (mime : Option (List Char)) :
    List Char :=
  (respPieces r code body mime).flatten

/-- `Response::send(code, body, mime)` (http.cc:371-420) over the scratch
buffer allocated by the constructor (http.cc:351-355) with size
`Const::MaxBuffer << 1`, i.e. twice the parser's maximum request buffer
`maxBuf`.  Each write is bounds-checked (the `OUT` macro rejects the
promise with the "insufficient space" error on a failed stream and
returns before reaching the transport); only on success is the scratch
slice handed to `peer()->send`, modelled as the `ok` payload of
`sendBytes`.  `sendStream` is the stream state after the write sequence. -/
def sendStream (maxBuf : Nat) (r : Resp) (code : Nat) (body : List Char)
    (mime : Option (List Char)) : OStream :=
  (respPieces r code body mime).foldl OStream.write
    { out := [], cap := 2 * maxBuf, ok := true }

/-- The promise `Response::send` resolves: the full scratch slice handed to
`peer()->send(buffer_.get(), obuf.len())` on success, or the rejection
with the "insufficient space" error when some bounds check failed. -/
def sendBytes (maxBuf : Nat) (r : Resp) (code : Nat) (body : List Char)
    (mime : Option (List Char)) : Except (List Char) (List Char) :=
  if (sendStream maxBuf r code body mime).ok then
    Except.ok (sendStream maxBuf r code body mime).out
  else Except.error "Could not write to stream: insufficient space".data

/-
  Peer association (http.cc:357-364, 438-445).  `std::weak_ptr` liveness
  is modelled by an `alive` predicate over peer identifiers:
  `use_count() > 0` and `!expired()` both mean the associated peer is
  still alive.
-/

/-- The response's weak peer association: the identifier of the peer it
was associated to, if any. -/
structure RespPeer where
  assoc : Option Nat
deriving DecidableEq, Repr

/-- `peer_.use_count() > 0`: an association exists and its peer is alive. -/
def liveAssoc (alive : Nat → Bool) (r : RespPeer) : Bool :=
  match r.assoc with
  | some p => alive p
  | none => false

/-- `Response::associatePeer` (http.cc:357-364): throw when a live peer is
already associated (the association is left unchanged — the returned
first component is the resulting association), else store the peer. -/
def associatePeer (alive : Nat → Bool) (r : RespPeer) (p : Nat) :
    RespPeer × Option (List Char) :=
  if liveAssoc alive r then
    (r, some "A peer was already associated to the response".data)
  else ({ assoc := some p }, none)

/-- `Response::peer` (http.cc:438-445): throw "Broken pipe" when the weak
association is expired (never set, or its peer destroyed), else return
the peer. -/
def peerGet (alive : Nat → Bool) (r : RespPeer) : Except (List Char) Nat :=
  match r.assoc with
  | some p => if alive p then Except.ok p else Except.error "Broken pipe".data
  | none => Except.error "Broken pipe".data

/-
  Readiness notifier (os.cc:139-231).
-/

/-- The abstract interest set `Flags<NotifyOn>`; a default-constructed
value has no flag set. -/
structure EvFlags where
  read : Bool
  write : Bool
  hangup : Bool
deriving DecidableEq, Repr

/-- A default-constructed `Flags<NotifyOn>`: empty. -/
def emptyFlags : EvFlags := { read := false, write := false, hangup := false }

/-- `Polling::Event`: the tag supplied at registration plus the observed
interest subset.  The `Event(Tag)` constructor leaves the flags at their
default (empty) value. -/
structure PollEvent where
  tag : Nat
  flags : EvFlags
deriving DecidableEq, Repr

/-- `Epoll::toNotifyOn` (os.cc:219-231): map the OS readiness bits
(EPOLLIN = 0x1, EPOLLOUT = 0x4, EPOLLHUP = 0x10) to the abstract set. -/
def toNotifyOn (events : Nat) : EvFlags :=
  { read := events.testBit 0, write := events.testBit 2, hangup := events.testBit 4 }

/-- `Epoll::poll` (os.cc:185-203).  The OS side (`epoll_wait`) is
modelled from the spec as the list of ready (tag, readiness-bits) pairs
it reports; the tag round-trips through `ev.data.u64` unchanged.  For
each ready event the source constructs a local `Event event(tag)` and
sets `event.flags = toNotifyOn(ev->events)`, but then executes
`events.push_back(tag)`, which goes through the implicit `Event(Tag)`
constructor — the local event and its flags are discarded.  Returns the
pushed events and `ready_fds`, the count `epoll_wait` reported. -/
def epollPoll (ready : List (Nat × Nat)) : List PollEvent × Nat :=
  (ready.map (fun ev =>
      let tag := ev.1
      let _event : PollEvent := { tag := tag, flags := toNotifyOn ev.2 }
      { tag := tag, flags := emptyFlags }),
   ready.length)

/-
  Test-scenario helpers used to state concrete claims.
-/

/-- Apply a sequence of `Query::add` calls in order. -/
def applyAdds (q : Query) (ops : List (List Char × List Char)) : Query :=
  ops.foldl (fun a p => a.add p.1 p.2) q

/-- Parse `r1` to completion, `reset()` the driver, feed and parse `r2`,
and look up `key` in the second request's query (outer `none` when either
parse fails to reach Done). -/
def resetScenarioQuery (r1 r2 key : List Char) : Option (Option (List Char)) :=
  match runOnce r1 with
  | ParseRes.ok HState.Done d1 =>
    match Parser.parse (Parser.feed r2.length (Parser.reset d1) r2).2 with
    | ParseRes.ok HState.Done d2 => some (d2.req.query.get key)
    | _ => none
  | _ => none

/-- Parse `r` on a freshly constructed driver and look up `key` in the
resulting request's query. -/
def freshScenarioQuery (r key : List Char) : Option (Option (List Char)) :=
  match runOnce r with
  | ParseRes.ok HState.Done d => some (d.req.query.get key)
  | _ => none

/-- The literal request of spec scenario 1. -/
def helloInput : List Char := "GET /hello HTTP/1.1\r\nHost: x\r\n\r\n".data

/-- A complete POST request with a 4-byte body. -/
def c1Single : List Char := "POST / HTTP/1.0\r\nContent-Length: 4\r\n\r\nabcd".data

/-- The same request split so that the chunk boundary falls inside the body. -/
def c1ChunkA : List Char := "POST / HTTP/1.0\r\nContent-Length: 4\r\n\r\nab".data

/-- The trailing two body bytes of the split request. -/
def c1ChunkB : List Char := "cd".data

/-
  Theorems.
-/

/-- For tokens and literals free of NUL bytes, `strncmp(tok, lit, |tok|) == 0`
holds exactly when the token is a byte prefix of the literal. -/
theorem strncmpIsEq_iff_take (tok : List Char) :
    ∀ lit : List Char, nulChar ∉ tok → nulChar ∉ lit →
      (strncmpIsEq tok lit tok.length = true ↔ tok = lit.take tok.length) := by
  induction tok with
  | nil =>
    intro lit _ _
    simp [strncmpIsEq]
  | cons c cs ih =>
    intro lit htok hlit
    have hc : c ≠ nulChar := fun h => htok (h ▸ List.mem_cons_self c cs)
    have hcs : nulChar ∉ cs := fun h => htok (List.mem_cons_of_mem c h)
    cases lit with
    | nil =>
      simp only [List.length_cons, strncmpIsEq, List.headD, List.take_nil]
      simp [hc]
    | cons l ls =>
      have hl : l ≠ nulChar := fun h => hlit (h ▸ List.mem_cons_self l ls)
      have hls : nulChar ∉ ls := fun h => hlit (List.mem_cons_of_mem l h)
      simp only [List.length_cons, strncmpIsEq, List.headD, List.tail_cons]
      by_cases hcl : c = l
      · subst hcl
        simp only [if_pos rfl, if_neg hc, if_true, ite_true]
        rw [ih ls hcs hls]
        simp [List.take_succ_cons]
      · simp [hcl, Ne.symm hcl]

/-- Claim C1 (code bug): fragmentation invariance fails.  The complete
request `c1Single` parsed from a single chunk reaches Done with body
"abcd", but the partition `[c1ChunkA, c1ChunkB]`, whose boundary falls
inside the body, reaches Done with body "ab": on the resuming call
`BodyStep::apply` (http.cc:224) appends the `remaining` bytes found at
`cursor.offset()` AFTER `cursor.advance(remaining)` — the bytes past the
body's end — instead of the bytes at the saved start, so the request
value differs from the single-chunk one. -/
theorem c1_fragmentation_bug_eval :
    outcomes (runList 42 freshParser [c1Single]) = [some HState.Done]
  ∧ (finalRequest (runList 42 freshParser [c1Single])).map Request.body = some "abcd".data
  ∧ outcomes (runList 42 freshParser [c1ChunkA, c1ChunkB])
      = [some HState.Again, some HState.Done]
  ∧ (finalRequest (runList 42 freshParser [c1ChunkA, c1ChunkB])).map Request.body
      = some "ab".data
  ∧ ("ab".data : List Char) ≠ "abcd".data := by
  refine ⟨by decide, by decide, by decide, by decide, by decide⟩

/-- Claim C2 counterexample: the claim's "Http10 iff the token is exactly
HTTP/1.0" is false.  The request "GET / H\r\n\r\n" has version token "H"
(the bytes between the SP at offset 5 and the CRLF), which is not the
literal "HTTP/1.0", yet the parser reaches Done with version Http10 and
raises no error: `strncmp(ver, "HTTP/1.0", size)` compares only
`size = 1` bytes. -/
theorem c2_version_counterexample :
    (doneReq (runOnce "GET / H\r\n\r\n".data)).map Request.version = some Version.Http10
  ∧ ("H".data : List Char) ≠ "HTTP/1.0".data := by
  refine ⟨by decide, by decide⟩

/-- Claim C2 (amended): for every complete request line whose version
token is terminated by CRLF and contains no NUL byte, the version is set
to Http10 iff the token is a byte PREFIX of "HTTP/1.0" (the `strncmp`
bound is the token's size), to Http11 iff it is not such a prefix but is
a byte prefix of "HTTP/1.1", and any other token raises a protocol error
with status 400 and reason "Encountered invalid HTTP version"; in
particular "GET / HTTP/2.0\r\n\r\n" raises that error. -/
theorem c2_version_amended :
    (∀ tok : List Char, nulChar ∉ tok →
      ((decideVersion tok = Except.ok Version.Http10 ↔ tok = "HTTP/1.0".data.take tok.length)
       ∧ (decideVersion tok = Except.ok Version.Http11 ↔
           (¬ tok = "HTTP/1.0".data.take tok.length ∧ tok = "HTTP/1.1".data.take tok.length))
       ∧ ((¬ tok = "HTTP/1.0".data.take tok.length ∧ ¬ tok = "HTTP/1.1".data.take tok.length) →
           decideVersion tok =
             Except.error { code := 400, reason := "Encountered invalid HTTP version".data })))
    ∧ errOf (runOnce "GET / HTTP/2.0\r\n\r\n".data) =
        some { code := 400, reason := "Encountered invalid HTTP version".data } := by
  constructor
  · intro tok htok
    have h10 := strncmpIsEq_iff_take tok "HTTP/1.0".data htok (by decide)
    have h11 := strncmpIsEq_iff_take tok "HTTP/1.1".data htok (by decide)
    by_cases hb10 : strncmpIsEq tok "HTTP/1.0".data tok.length = true
    · have hp10 : tok = "HTTP/1.0".data.take tok.length := h10.mp hb10
      refine ⟨?_, ?_, ?_⟩
      · unfold decideVersion
        rw [if_pos hb10]
        exact iff_of_true rfl hp10
      · unfold decideVersion
        rw [if_pos hb10]
        exact iff_of_false (by simp) (fun h => h.1 hp10)
      · intro h
        exact absurd hp10 h.1
    · have hp10 : ¬ tok = "HTTP/1.0".data.take tok.length := fun h => hb10 (h10.mpr h)
      by_cases hb11 : strncmpIsEq tok "HTTP/1.1".data tok.length = true
      · have hp11 : tok = "HTTP/1.1".data.take tok.length := h11.mp hb11
        refine ⟨?_, ?_, ?_⟩
        · unfold decideVersion
          rw [if_neg hb10, if_pos hb11]
          exact iff_of_false (by simp) hp10
        · unfold decideVersion
          rw [if_neg hb10, if_pos hb11]
          exact iff_of_true rfl ⟨hp10, hp11⟩
        · intro h
          exact absurd hp11 h.2
      · have hp11 : ¬ tok = "HTTP/1.1".data.take tok.length := fun h => hb11 (h11.mpr h)
        refine ⟨?_, ?_, ?_⟩
        · unfold decideVersion
          rw [if_neg hb10, if_neg hb11]
          exact iff_of_false (by simp) hp10
        · unfold decideVersion
          rw [if_neg hb10, if_neg hb11]
          exact iff_of_false (by simp) (fun h => hp11 h.2)
        · intro _
          unfold decideVersion
          rw [if_neg hb10, if_neg hb11]
  · decide

/-- Witness for claim C2's amended theorem at the token "HTTP/1.1". -/
theorem c2_version_amended_witness :
    decideVersion "HTTP/1.1".data = Except.ok Version.Http11 :=
  ((c2_version_amended.1 "HTTP/1.1".data (by decide)).2.1).mpr (by decide)

/-- Claim C3 (code bug): reset is not pure.  `Parser::reset`
(http.cc:274-284) clears the buffer, cursor, step index, headers, body
and resource but NOT `request.query_`; since `Query::add` keeps the
first-inserted value, a request parsed after `reset()` still sees the
previous request's query values.  Parsing "GET /x?a=1 ...", resetting,
then parsing "GET /y?a=2 ..." yields query a = "1", while a freshly
constructed driver parsing the second request yields a = "2". -/
theorem c3_reset_query_leak :
    resetScenarioQuery "GET /x?a=1 HTTP/1.1\r\n\r\n".data
        "GET /y?a=2 HTTP/1.1\r\n\r\n".data "a".data = some (some "1".data)
  ∧ freshScenarioQuery "GET /y?a=2 HTTP/1.1\r\n\r\n".data "a".data = some (some "2".data)
  ∧ (some (some "1".data) : Option (Option (List Char))) ≠ some (some "2".data) := by
  refine ⟨by decide, by decide, by decide⟩

/-- Claim C4: feeding "GET /hello HTTP/1.1\r\nHost: x\r\n\r\n" to a fresh
parser and parsing returns Done with method Get, resource "/hello", an
empty query, the Host header with value "x", an empty body, and version
Http11. -/
theorem c4_hello_request (cap : Nat) (h : helloInput.length ≤ cap) :
    (Parser.feed cap freshParser helloInput).1 = true
  ∧ doneReq (Parser.parse (Parser.feed cap freshParser helloInput).2)
      = some { method := Method.Get, version := Version.Http11,
               resource := "/hello".data, query := ⟨[]⟩,
               headers := [("Host".data, "x".data)], body := [] } := by
  have hfeed : Parser.feed cap freshParser helloInput
      = (true, { freshParser with buffer := helloInput }) := by
    unfold Parser.feed
    rw [if_neg (by simpa [freshParser] using Nat.not_lt.mpr h)]
    simp [freshParser]
  rw [hfeed]
  exact ⟨rfl, by decide⟩

/-- Witness for claim C4 at capacity 32 (the input's exact length). -/
theorem c4_hello_request_witness :
    (Parser.feed 32 freshParser helloInput).1 = true
  ∧ doneReq (Parser.parse (Parser.feed 32 freshParser helloInput).2)
      = some { method := Method.Get, version := Version.Http11,
               resource := "/hello".data, query := ⟨[]⟩,
               headers := [("Host".data, "x".data)], body := [] } :=
  c4_hello_request 32 (by decide)

/-- Claim C8 (code bug): when the OS reports one ready event with tag 7
and readiness bits EPOLLIN, `Epoll::poll` returns count 1 and an event
whose tag is 7, but the event's interest subset is EMPTY rather than
{Read}: `events.push_back(tag)` (os.cc:198) converts the tag through the
`Event(Tag)` constructor and discards the flags that were set on the
local event. -/
theorem c8_poll_flags_dropped :
    epollPoll [(7, 1)] = ([{ tag := 7, flags := emptyFlags }], 1)
  ∧ toNotifyOn 1 = { read := true, write := false, hangup := false }
  ∧ ({ tag := 7, flags := emptyFlags } : PollEvent)
      ≠ { tag := 7, flags := { read := true, write := false, hangup := false } } := by
  refine ⟨by decide, by decide, by decide⟩

/-- Claim C5: `Parser::feed` returns false exactly when appending the
chunk would exceed the buffer capacity; in that case the buffer (indeed
the whole driver) is unchanged, and `Handler::onInput` then resets the
parser and sends the peer a 413 Request Entity Too Large response. -/
theorem c5_feed_overflow (cap : Nat) (d : Parser) (chunk : List Char) :
    ((Parser.feed cap d chunk).1 = false ↔ d.buffer.length + chunk.length > cap)
  ∧ ((Parser.feed cap d chunk).1 = false → (Parser.feed cap d chunk).2 = d)
  ∧ ((Parser.feed cap d chunk).1 = false →
      onInput cap d chunk =
        (Parser.reset d, Action.errorSent 413 "Request exceeded maximum buffer size".data)) := by
  by_cases h : d.buffer.length + chunk.length > cap
  · simp [Parser.feed, onInput, h]
  · simp [Parser.feed, onInput, h]

/-- Witness for claim C5 at capacity 0 with a one-byte chunk. -/
theorem c5_feed_overflow_witness :
    (Parser.feed 0 freshParser "a".data).1 = false
  ∧ (Parser.feed 0 freshParser "a".data).2 = freshParser
  ∧ onInput 0 freshParser "a".data =
      (Parser.reset freshParser,
       Action.errorSent 413 "Request exceeded maximum buffer size".data) := by
  have h := c5_feed_overflow 0 freshParser "a".data
  have hfalse : (Parser.feed 0 freshParser "a".data).1 = false := h.1.mpr (by decide)
  exact ⟨hfalse, h.2.1 hfalse, h.2.2 hfalse⟩

/-- A failed output stream is left unchanged by any further writes. -/
theorem foldl_write_failed (ps : List (List Char)) :
    ∀ st : OStream, st.ok = false → ps.foldl OStream.write st = st := by
  induction ps with
  | nil =>
    intro st _
    rfl
  | cons p ps ih =>
    intro st h
    rw [List.foldl_cons, show OStream.write st p = st from by unfold OStream.write; rw [if_pos h]]
    exact ih st h

/-- For a stream whose contents fit its capacity, the write sequence ends
in a non-failed stream exactly when the whole output fits. -/
theorem foldl_write_ok_iff (ps : List (List Char)) :
    ∀ st : OStream, st.out.length ≤ st.cap →
      (((ps.foldl OStream.write st).ok = true) ↔
        (st.ok = true ∧ st.out.length + ps.flatten.length ≤ st.cap)) := by
  induction ps with
  | nil =>
    intro st hinv
    simp only [List.foldl_nil, List.flatten_nil, List.length_nil, Nat.add_zero]
    exact (and_iff_left hinv).symm
  | cons p ps ih =>
    intro st hinv
    obtain ⟨o, cp, okv⟩ := st
    rw [List.foldl_cons]
    cases okv with
    | false =>
      rw [show OStream.write ⟨o, cp, false⟩ p = ⟨o, cp, false⟩ from by
            unfold OStream.write; rw [if_pos rfl],
          foldl_write_failed ps ⟨o, cp, false⟩ rfl]
      simp
    | true =>
      by_cases hfit : o.length + p.length ≤ cp
      · rw [show OStream.write ⟨o, cp, true⟩ p = ⟨o ++ p, cp, true⟩ from by
              unfold OStream.write; rw [if_neg (by simp), if_pos hfit],
            ih ⟨o ++ p, cp, true⟩ (by simpa using hfit)]
        simp only [List.flatten_cons, List.length_append, eq_self_iff_true, true_and]
        omega
      · rw [show OStream.write ⟨o, cp, true⟩ p = ⟨o, cp, false⟩ from by
              unfold OStream.write; rw [if_neg (by simp), if_neg hfit],
            foldl_write_failed ps ⟨o, cp, false⟩ rfl]
        simp only [List.flatten_cons, List.length_append, eq_self_iff_true, true_and,
          Bool.false_eq_true, false_iff]
        omega

/-- When everything fits, the write sequence appends exactly the
concatenation of the pieces. -/
theorem foldl_write_out (ps : List (List Char)) :
    ∀ st : OStream, st.ok = true → st.out.length + ps.flatten.length ≤ st.cap →
      ps.foldl OStream.write st = { out := st.out ++ ps.flatten, cap := st.cap, ok := true } := by
  induction ps with
  | nil =>
    intro st hok _
    obtain ⟨o, cp, okv⟩ := st
    cases okv with
    | false => exact absurd hok (by simp)
    | true => simp
  | cons p ps ih =>
    intro st hok hfit
    obtain ⟨o, cp, okv⟩ := st
    cases okv with
    | false => exact absurd hok (by simp)
    | true =>
      have hfitp : o.length + p.length ≤ cp := by
        simp only [List.flatten_cons, List.length_append] at hfit
        omega
      rw [List.foldl_cons,
          show OStream.write ⟨o, cp, true⟩ p = ⟨o ++ p, cp, true⟩ from by
            unfold OStream.write; rw [if_neg (by simp), if_pos hfitp],
          ih ⟨o ++ p, cp, true⟩ rfl (by
            simp only [List.flatten_cons, List.length_append] at hfit ⊢
            omega)]
      simp [List.append_assoc]

/-- Claim C7: serializer overflow atomicity.  `send` produces bytes for
the peer's transport exactly when the entire serialized response fits the
fixed scratch buffer of size twice the parser's maximum request buffer,
and in that case the bytes are exactly the serialized response; when the
response does not fit, `send` fails with the "insufficient space" error
and no bytes are handed to the transport. -/
theorem c7_send_space (maxBuf : Nat) (r : Resp) (code : Nat) (body : List Char)
    (mime : Option (List Char)) :
    (∀ out : List Char,
       sendBytes maxBuf r code body mime = Except.ok out ↔
         ((renderedResp r code body mime).length ≤ 2 * maxBuf
          ∧ out = renderedResp r code body mime))
  ∧ ((renderedResp r code body mime).length > 2 * maxBuf →
       sendBytes maxBuf r code body mime =
         Except.error "Could not write to stream: insufficient space".data) := by
  constructor
  · intro out
    constructor
    · intro h
      unfold sendBytes sendStream at h
      by_cases hfit : (renderedResp r code body mime).length ≤ 2 * maxBuf
      · have heq := foldl_write_out (respPieces r code body mime)
          ⟨[], 2 * maxBuf, true⟩ rfl (by simpa [renderedResp] using hfit)
        rw [heq] at h
        simp only [if_pos rfl] at h
        refine ⟨hfit, ?_⟩
        have hout : [] ++ (respPieces r code body mime).flatten = out := by
          exact Except.ok.inj h
        rw [← hout]
        simp [renderedResp]
      · exfalso
        have hok : ¬ ((respPieces r code body mime).foldl OStream.write
            ⟨[], 2 * maxBuf, true⟩).ok = true := by
          rw [foldl_write_ok_iff (respPieces r code body mime)
            ⟨[], 2 * maxBuf, true⟩ (Nat.zero_le _)]
          intro hcon
          exact hfit (by simpa [renderedResp] using hcon.2)
        rw [if_neg hok] at h
        exact Except.noConfusion h
    · rintro ⟨hfit, rfl⟩
      unfold sendBytes sendStream
      rw [foldl_write_out (respPieces r code body mime)
          ⟨[], 2 * maxBuf, true⟩ rfl (by simpa [renderedResp] using hfit)]
      simp [renderedResp]
  · intro hgt
    have hok : ¬ (sendStream maxBuf r code body mime).ok = true := by
      unfold sendStream
      rw [foldl_write_ok_iff (respPieces r code body mime)
        ⟨[], 2 * maxBuf, true⟩ (Nat.zero_le _)]
      intro hcon
      have := hcon.2
      simp only [renderedResp] at hgt
      simp only [List.length_nil, Nat.zero_add] at this
      omega
    unfold sendBytes
    rw [if_neg hok]

/-- Witness for claim C7 at scratch capacity 0 (maxBuf = 0). -/
theorem c7_send_space_witness :
    sendBytes 0 ⟨[]⟩ 200 [] none =
      Except.error "Could not write to stream: insufficient space".data :=
  (c7_send_space 0 ⟨[]⟩ 200 [] none).2 (by decide)

/-- Claim C6: `send(200, "hi", text/plain)` on a response with no headers
emits exactly the status line, one Content-Type: text/plain line, one
Content-Length: 2 line, a blank line, and the two body bytes; and in
general, for every non-empty body a successful send's output has a
Content-Length header carrying the body's length, followed by the blank
line, followed by the body bytes. -/
theorem c6_send_output (maxBuf : Nat)
    (h : (renderedResp ⟨[]⟩ 200 "hi".data (some "text/plain".data)).length ≤ 2 * maxBuf) :
    sendBytes maxBuf ⟨[]⟩ 200 "hi".data (some "text/plain".data)
      = Except.ok
          "HTTP/1.1 200 OK\r\nContent-Type: text/plain\r\nContent-Length: 2\r\n\r\nhi".data
  ∧ (∀ (M : Nat) (r : Resp) (code : Nat) (body : List Char) (mime : Option (List Char))
        (out : List Char),
      body ≠ [] → sendBytes M r code body mime = Except.ok out →
      ∃ pre : List Char,
        out = pre ++ "Content-Length: ".data ++ (toString body.length).data
              ++ crlfL ++ crlfL ++ body) := by
  constructor
  · unfold sendBytes sendStream
    rw [foldl_write_out (respPieces ⟨[]⟩ 200 "hi".data (some "text/plain".data))
        ⟨[], 2 * maxBuf, true⟩ rfl (by simpa [renderedResp] using h)]
    simp only [if_pos rfl]
    exact congrArg Except.ok (by decide)
  · intro M r code body mime out hbody hsend
    unfold sendBytes sendStream at hsend
    by_cases hok : ((respPieces r code body mime).foldl OStream.write
        ⟨[], 2 * M, true⟩).ok = true
    · have hfits := (foldl_write_ok_iff (respPieces r code body mime)
        ⟨[], 2 * M, true⟩ (Nat.zero_le _)).mp hok
      have heq := foldl_write_out (respPieces r code body mime)
        ⟨[], 2 * M, true⟩ rfl hfits.2
      rw [heq] at hsend
      simp only [if_pos rfl] at hsend
      have hout : [] ++ (respPieces r code body mime).flatten = out := Except.ok.inj hsend
      subst hout
      refine ⟨(respPrefixPieces r code mime).flatten, ?_⟩
      simp only [List.nil_append, respPieces, if_pos hbody, List.flatten_append,
        List.flatten_cons, List.flatten_nil, contentLengthLine, List.append_nil,
        List.append_assoc]
    · rw [if_neg hok] at hsend
      exact Except.noConfusion hsend

/-- Witness for claim C6 at maxBuf = 4096 (scratch capacity 8192). -/
theorem c6_send_output_witness :
    sendBytes 4096 ⟨[]⟩ 200 "hi".data (some "text/plain".data)
      = Except.ok
          "HTTP/1.1 200 OK\r\nContent-Type: text/plain\r\nContent-Length: 2\r\n\r\nhi".data :=
  (c6_send_output 4096 (by decide)).1

/-- A key absent from the first part of an association list is looked up
in the second part. -/
theorem qfind_append_of_none (a b : List (List Char × List Char)) (k : List Char)
    (h : qfind a k = none) : qfind (a ++ b) k = qfind b k := by
  induction a with
  | nil => rfl
  | cons p a ih =>
    obtain ⟨pk, pv⟩ := p
    simp only [qfind, List.cons_append] at h ⊢
    by_cases hpk : pk = k
    · rw [if_pos hpk] at h
      exact absurd h (by simp)
    · rw [if_neg hpk] at h ⊢
      exact ih h

/-- A key found in the first part of an association list keeps its value
after appending. -/
theorem qfind_append_of_some (a b : List (List Char × List Char)) (k w : List Char)
    (h : qfind a k = some w) : qfind (a ++ b) k = some w := by
  induction a with
  | nil => exact absurd h (by simp [qfind])
  | cons p a ih =>
    obtain ⟨pk, pv⟩ := p
    simp only [qfind, List.cons_append] at h ⊢
    by_cases hpk : pk = k
    · rw [if_pos hpk] at h ⊢
      exact h
    · rw [if_neg hpk] at h ⊢
      exact ih h

/-- Adding a key that is absent makes it retrievable with the added value. -/
theorem Query.get_add_self (q : Query) (k v : List Char) (h : q.get k = none) :
    (q.add k v).get k = some v := by
  unfold Query.get at h
  simp only [Query.add, Query.get, h]
  rw [qfind_append_of_none _ _ _ h]
  simp [qfind]

/-- A key already present keeps its value across any further add. -/
theorem Query.get_add_of_some (q : Query) (k' v k w : List Char) (h : q.get k = some w) :
    (q.add k' v).get k = some w := by
  unfold Query.get at h ⊢
  unfold Query.add
  cases hf : qfind q.params k' with
  | some u => simp only [hf]; exact h
  | none => simp only [hf]; exact qfind_append_of_some _ _ _ _ h

/-- Adding under a different key does not change a lookup. -/
theorem Query.get_add_ne (q : Query) (k' v k : List Char) (hne : k' ≠ k) :
    (q.add k' v).get k = q.get k := by
  unfold Query.get Query.add
  cases hf : qfind q.params k' with
  | some u => simp only [hf]
  | none =>
    simp only [hf]
    cases hk : qfind q.params k with
    | some w => exact qfind_append_of_some _ _ _ _ hk
    | none =>
      rw [qfind_append_of_none _ _ _ hk]
      simp [qfind, hne]

/-- A lookup misses after an add exactly when it missed before and the
added key is different. -/
theorem Query.get_add_none_iff (q : Query) (k' v k : List Char) :
    ((q.add k' v).get k = none) ↔ (q.get k = none ∧ k' ≠ k) := by
  by_cases hne : k' = k
  · subst hne
    cases hk : q.get k' with
    | some w =>
      rw [Query.get_add_of_some q k' v k' w hk]
      simp [hk]
    | none =>
      rw [Query.get_add_self q k' v hk]
      simp
  · rw [Query.get_add_ne q k' v k hne]
    simp [hne]

/-- A present key survives any sequence of adds with its value intact. -/
theorem get_applyAdds_of_some (ops : List (List Char × List Char)) :
    ∀ (q : Query) (k w : List Char), q.get k = some w →
      (applyAdds q ops).get k = some w := by
  induction ops with
  | nil =>
    intro q k w h
    exact h
  | cons p ops ih =>
    intro q k w h
    have hstep : applyAdds q (p :: ops) = applyAdds (q.add p.1 p.2) ops := rfl
    rw [hstep]
    exact ih _ k w (Query.get_add_of_some q p.1 p.2 k w h)

/-- Claim C9: query first-value retention.  Starting from any query in
which `k` is absent, after `add(k, v1)` followed by any further sequence
of adds (in particular ones containing `add(k, v2)` with a different
value), `get k` returns the first-inserted `v1`; and `get k` misses after
a sequence of adds exactly when it missed before and no add in the
sequence used key `k`. -/
theorem c9_query_first_value (q : Query) (k v1 : List Char)
    (ops : List (List Char × List Char)) :
    (q.get k = none → (applyAdds (q.add k v1) ops).get k = some v1)
  ∧ ((applyAdds q ops).get k = none ↔ (q.get k = none ∧ ∀ p ∈ ops, p.1 ≠ k)) := by
  constructor
  · intro h
    exact get_applyAdds_of_some ops _ k v1 (Query.get_add_self q k v1 h)
  · induction ops generalizing q with
    | nil => simp [applyAdds]
    | cons p ops ih =>
      have hstep : applyAdds q (p :: ops) = applyAdds (q.add p.1 p.2) ops := rfl
      rw [hstep, ih (q.add p.1 p.2), Query.get_add_none_iff]
      constructor
      · rintro ⟨⟨h1, h2⟩, h3⟩
        refine ⟨h1, ?_⟩
        intro x hx
        rcases List.mem_cons.mp hx with hx | hx
        · rw [hx]
          exact h2
        · exact h3 x hx
      · rintro ⟨h1, h2⟩
        exact ⟨⟨h1, h2 p (List.mem_cons_self p ops)⟩,
               fun x hx => h2 x (List.mem_cons_of_mem p hx)⟩

/-- Witness for claim C9: add a = 1, then b = 2 and a = 3; get a is still
1; and on the query that only ever added b, get a misses. -/
theorem c9_query_first_value_witness :
    (applyAdds ((⟨[]⟩ : Query).add "a".data "1".data)
        [("b".data, "2".data), ("a".data, "3".data)]).get "a".data = some "1".data
  ∧ (applyAdds (⟨[]⟩ : Query) [("b".data, "2".data)]).get "a".data = none := by
  refine ⟨(c9_query_first_value ⟨[]⟩ "a".data "1".data
      [("b".data, "2".data), ("a".data, "3".data)]).1 (by decide),
    (c9_query_first_value ⟨[]⟩ "a".data "x".data [("b".data, "2".data)]).2.mpr (by decide)⟩

/-- Claim C10: `associatePeer` is single-shot.  Called while a live peer
is associated it throws "A peer was already associated to the response"
and leaves the association unchanged; called with no live association it
stores the given peer, after which `peer()` returns that peer while it is
alive and throws "Broken pipe" once the peer has been destroyed. -/
theorem c10_associate_peer (aliveAtAssoc aliveAtSend : Nat → Bool) (r : RespPeer) (p : Nat) :
    (liveAssoc aliveAtAssoc r = true →
      associatePeer aliveAtAssoc r p =
        (r, some "A peer was already associated to the response".data))
  ∧ (liveAssoc aliveAtAssoc r = false →
      (associatePeer aliveAtAssoc r p = ({ assoc := some p }, none)
       ∧ (aliveAtSend p = true →
            peerGet aliveAtSend { assoc := some p } = Except.ok p)
       ∧ (aliveAtSend p = false →
            peerGet aliveAtSend { assoc := some p } =
              Except.error "Broken pipe".data))) := by
  constructor
  · intro h
    simp [associatePeer, h]
  · intro h
    refine ⟨?_, ?_, ?_⟩
    · simp [associatePeer, h]
    · intro ha
      simp [peerGet, ha]
    · intro ha
      simp [peerGet, ha]

/-- Witness for claim C10: associating peer 5 to a response with no
association succeeds, and peer() throws once 5 is gone. -/
theorem c10_associate_peer_witness :
    associatePeer (fun _ => false) { assoc := none } 5 = ({ assoc := some 5 }, none)
  ∧ peerGet (fun _ => false) { assoc := some 5 } = Except.error "Broken pipe".data := by
  have h := (c10_associate_peer (fun _ => false) (fun _ => false) { assoc := none } 5).2 rfl
  exact ⟨h.1, h.2.2 rfl⟩

end Pistache
